import Mathlib

/-!
Verification of the padel-tech media-store and progress-analytics core.

This file gives a shallow embedding of the relevant source functions:

* the comparison computation of `src/backend/src/routes/analysis.js`
  (POST handler, lines 78-87) over JavaScript number semantics;
* the client utility `calculateScoreImprovement` of the analysis service;
* the trend classifiers `calculateTrend` (`src/backend/src/models/Analysis.js`)
  and `calculateImprovementTrend` (client ai service);
* the streaming aggregate update `updateStats` of the `User` model;
* the `VideoStorageService` of `src/src/services/videoStorageService.ts`,
  modelled as explicit state passing over a store record holding the
  persisted index (AsyncStorage), the set of on-disk files, and the
  environment's injected I/O failures.  The native (non-web) platform
  branch is the one modelled; `Platform.OS === 'web'` early returns are
  out of scope.

Theorems about these definitions settle the frozen claims.
-/

namespace PadelTech

/-! ### JavaScript number semantics

JavaScript division by zero produces `Infinity`, `-Infinity` or `NaN`
rather than raising an error.  We embed the JS number line as the
rationals extended with those three values, together with the operations
the analysed code performs (`-`, `/`, `*`, `Math.round`). -/

inductive JSNum where
  | num (q : ℚ)
  | posInf
  | negInf
  | nan
deriving DecidableEq, Repr

/-- Subtraction on JS numbers. -/
def JSNum.sub : JSNum → JSNum → JSNum
  | .nan, _ => .nan
  | _, .nan => .nan
  | .num a, .num b => .num (a - b)
  | .num _, .posInf => .negInf
  | .num _, .negInf => .posInf
  | .posInf, .num _ => .posInf
  | .negInf, .num _ => .negInf
  | .posInf, .posInf => .nan
  | .negInf, .negInf => .nan
  | .posInf, .negInf => .posInf
  | .negInf, .posInf => .negInf

/-- Division on JS numbers: a nonzero finite number divided by zero gives
a signed infinity, and `0 / 0` gives `NaN`. -/
def JSNum.div : JSNum → JSNum → JSNum
  | .nan, _ => .nan
  | _, .nan => .nan
  | .num a, .num b =>
      if b = 0 then
        if a = 0 then .nan else if a > 0 then .posInf else .negInf
      else .num (a / b)
  | .num _, .posInf => .num 0
  | .num _, .negInf => .num 0
  | .posInf, .num b => if b < 0 then .negInf else .posInf
  | .negInf, .num b => if b < 0 then .posInf else .negInf
  | .posInf, _ => .nan
  | .negInf, _ => .nan

/-- Multiplication on JS numbers: `0 * Infinity` is `NaN`. -/
def JSNum.mul : JSNum → JSNum → JSNum
  | .nan, _ => .nan
  | _, .nan => .nan
  | .num a, .num b => .num (a * b)
  | .num a, .posInf => if a = 0 then .nan else if a > 0 then .posInf else .negInf
  | .num a, .negInf => if a = 0 then .nan else if a > 0 then .negInf else .posInf
  | .posInf, .num b => if b = 0 then .nan else if b > 0 then .posInf else .negInf
  | .negInf, .num b => if b = 0 then .nan else if b > 0 then .negInf else .posInf
  | .posInf, .posInf => .posInf
  | .posInf, .negInf => .negInf
  | .negInf, .posInf => .negInf
  | .negInf, .negInf => .posInf

/-- Behaviour of `Math.round` on a finite value: half-up rounding,
ties toward positive infinity. -/
def mathRound (q : ℚ) : ℚ := ((⌊q + 1 / 2⌋ : ℤ) : ℚ)

/-- Extension of `Math.round` to all JS numbers. -/
def JSNum.round : JSNum → JSNum
  | .num q => .num (mathRound q)
  | .posInf => .posInf
  | .negInf => .negInf
  | .nan => .nan

/-- Embedding of line 80 of `src/backend/src/routes/analysis.js`:
`const improvement = ((results.overallScore - previousScore) / previousScore) * 100;`. -/
def routeImprovement (overallScore previousScore : ℚ) : JSNum :=
  (((JSNum.num overallScore).sub (JSNum.num previousScore)).div
    (JSNum.num previousScore)).mul (JSNum.num 100)

/-- Embedding of line 84 of `src/backend/src/routes/analysis.js`:
`improvement: Math.round(improvement * 100) / 100`, the value stored in
`analysis.comparison.improvement`. -/
def routeComparisonImprovement (overallScore previousScore : ℚ) : JSNum :=
  (((routeImprovement overallScore previousScore).mul (JSNum.num 100)).round).div
    (JSNum.num 100)

/-- Embedding of `calculateScoreImprovement` from the client analysis
service: `if (previousScore === 0) return 0;
return Math.round(((currentScore - previousScore) / previousScore) * 100);`. -/
def calculateScoreImprovement (currentScore previousScore : ℚ) : ℚ :=
  if previousScore = 0 then 0
  else mathRound ((currentScore - previousScore) / previousScore * 100)

/-! ### Trend classification -/

inductive Trend where
  | improving
  | stable
  | declining
deriving DecidableEq, Repr

/-- Embedding of `calculateImprovementTrend` from the client ai service:
fewer than 3 samples is `stable`; otherwise compare `recentScores[0]`
against `recentScores[2]` of `scores.slice(-3)` with a strict ±5 margin. -/
def calculateImprovementTrend (scores : List ℤ) : Trend :=
  if scores.length < 3 then .stable
  else
    let recentScores := scores.drop (scores.length - 3)
    let firstScore := recentScores.getD 0 0
    let lastScore := recentScores.getD 2 0
    if lastScore > firstScore + 5 then .improving
    else if lastScore < firstScore - 5 then .declining
    else .stable

/-- Projection of an analysis document to the one field the trend
computation reads (`analysis.results.overallScore`). -/
structure AnalysisDoc where
  overallScore : ℤ
deriving DecidableEq, Repr

/-- Embedding of `analysisSchema.methods.calculateTrend` from
`src/backend/src/models/Analysis.js` lines 187-202. -/
def calculateTrend (previousAnalyses : List AnalysisDoc) : Trend :=
  if previousAnalyses.length = 0 then .stable
  else
    let recentScores :=
      (previousAnalyses.drop (previousAnalyses.length - 3)).map
        (fun analysis => analysis.overallScore)
    if recentScores.length < 3 then .stable
    else
      let firstScore := recentScores.getD 0 0
      let lastScore := recentScores.getD (recentScores.length - 1) 0
      if lastScore > firstScore + 5 then .improving
      else if lastScore < firstScore - 5 then .declining
      else .stable

/-! ### Streaming user aggregates -/

/-- The per-user aggregate fields read and written by
`userSchema.methods.updateStats` (`stats.totalAnalyses`,
`stats.averageScore`, `stats.bestScore`), with schema defaults 0. -/
structure UserStats where
  totalAnalyses : ℕ
  averageScore : ℚ
  bestScore : ℚ
deriving DecidableEq, Repr

/-- Embedding of `userSchema.methods.updateStats`: increment the count,
update the streaming mean
`averageScore = (averageScore * (totalAnalyses - 1) + analysisScore) / totalAnalyses`
(the count having already been incremented), and take the max for
`bestScore`. -/
def updateStats (stats : UserStats) (analysisScore : ℚ) : UserStats :=
  let totalAnalyses := stats.totalAnalyses + 1
  let totalScore := stats.averageScore * ((totalAnalyses : ℚ) - 1) + analysisScore
  { totalAnalyses := totalAnalyses
    averageScore := totalScore / (totalAnalyses : ℚ)
    bestScore := if analysisScore > stats.bestScore then analysisScore else stats.bestScore }

/-- Schema defaults: `totalAnalyses: 0`, `averageScore: 0`, `bestScore: 0`. -/
def initialStats : UserStats :=
  { totalAnalyses := 0, averageScore := 0, bestScore := 0 }

/-- Recording a whole history of scores, one `updateStats` call per score. -/
def recordScores (scores : List ℚ) : UserStats :=
  scores.foldl updateStats initialStats

/-! ### The video storage service

State-passing model of `VideoStorageService`
(`src/src/services/videoStorageService.ts`), native platform branch.
The store state is the persisted AsyncStorage index (`raw`), the set of
files on disk (`files`, by uri), and the environment's injected I/O
failures: `failDelete` lists uris for which `FileSystem.deleteAsync`
throws, `failCopy` lists source uris for which `FileSystem.copyAsync`
throws.  The untyped `analysisResult` JSON payload is modelled as an
opaque string. -/

deriving instance DecidableEq for Except

structure StoredVideo where
  id : String
  uri : String
  shotType : String
  fileName : String
  timestamp : ℤ
  duration : ℚ
  size : ℚ
  analysisResult : Option String
deriving DecidableEq, Repr

structure VideoMetadata where
  shotType : String
  timestamp : ℤ
  duration : ℚ
  size : ℚ
  analysisResult : Option String
deriving DecidableEq, Repr

/-- Contents of the AsyncStorage key `padeltech_videos_index`: absent on
first run, a well-formed JSON array of videos, or unparseable bytes. -/
inductive RawIndex where
  | absent
  | corrupt
  | good (videos : List StoredVideo)
deriving DecidableEq, Repr

structure Store where
  raw : RawIndex
  files : List String
  failDelete : List String
  failCopy : List String
deriving DecidableEq, Repr

/-- Ordering used by `getAllVideos`: the comparator
`(a, b) => b.timestamp - a.timestamp`, i.e. `a` sorts no later than `b`
when `b.timestamp ≤ a.timestamp`. -/
def tsDesc (a b : StoredVideo) : Prop := b.timestamp ≤ a.timestamp

instance : DecidableRel tsDesc := fun a b => Int.decLe b.timestamp a.timestamp

instance : IsTotal StoredVideo tsDesc :=
  ⟨fun a b => (le_total b.timestamp a.timestamp)⟩

instance : IsTrans StoredVideo tsDesc :=
  ⟨fun _ _ _ hab hbc => le_trans hbc hab⟩

/-- JavaScript `Array.prototype.sort` is a stable sort; we model
`videos.sort((a, b) => b.timestamp - a.timestamp)` as a stable sort by
descending timestamp. -/
def sortByTimestampDesc (videos : List StoredVideo) : List StoredVideo :=
  videos.insertionSort tsDesc

/-- Body of `getAllVideos` up to its `catch`: read the raw index
(`JSON.parse` throws on a corrupt index), drop entries whose backing file
no longer exists, persist the pruned index when anything was dropped, and
return the surviving entries sorted newest-first.  The persisted pruned
index is written before the returned array is sorted in place, so `raw`
keeps the unsorted order. -/
def getAllVideosTry (st : Store) : Except String (List StoredVideo × Store) :=
  match st.raw with
  | .absent => .ok ([], st)
  | .corrupt => .error "SyntaxError: JSON parse"
  | .good videos =>
      let validVideos := videos.filter (fun v => decide (v.uri ∈ st.files))
      let indexChanged := videos.any (fun v => decide (v.uri ∉ st.files))
      let st1 := if indexChanged then { st with raw := .good validVideos } else st
      .ok (sortByTimestampDesc validVideos, st1)

/-- Whole of `getAllVideos`: any error thrown in the body is caught and
turned into the empty list. -/
def getAllVideosRun (st : Store) : List StoredVideo × Store :=
  match getAllVideosTry st with
  | .ok r => r
  | .error _ => ([], st)

/-- Embedding of `getVideosByShotType`: filter `getAllVideos()` on
`video.shotType === shotType`. -/
def getVideosByShotTypeRun (st : Store) (shotType : String) :
    List StoredVideo × Store :=
  let (allVideos, st1) := getAllVideosRun st
  (allVideos.filter (fun v => decide (v.shotType = shotType)), st1)

/-- Embedding of `deleteVideo`: look the id up in `getAllVideos()`
(`throw new Error('Video not found')` when absent, rethrown by the catch
as `'Failed to delete video'`), delete the physical file when it exists
(a failing `deleteAsync` is also rethrown as `'Failed to delete video'`),
then persist the index without the entry. -/
def deleteVideoRun (st : Store) (videoId : String) : Store × Except String Unit :=
  let (videos, st1) := getAllVideosRun st
  match videos.find? (fun v => decide (v.id = videoId)) with
  | none => (st1, .error "Failed to delete video")
  | some videoToDelete =>
      if videoToDelete.uri ∈ st1.files then
        if videoToDelete.uri ∈ st1.failDelete then
          (st1, .error "Failed to delete video")
        else
          ({ st1 with
              files := st1.files.erase videoToDelete.uri
              raw := .good (videos.filter (fun v => decide (¬ v.id = videoId))) },
            .ok ())
      else
        ({ st1 with raw := .good (videos.filter (fun v => decide (¬ v.id = videoId))) },
          .ok ())

/-- Mutation `videos[videoIndex].analysisResult = analysisResult` at a
given position, leaving every other element and every other field alone. -/
def setAnalysisAt (analysisResult : String) :
    List StoredVideo → ℕ → List StoredVideo
  | [], _ => []
  | v :: rest, 0 => { v with analysisResult := some analysisResult } :: rest
  | v :: rest, n + 1 => v :: setAnalysisAt analysisResult rest n

/-- Embedding of `updateVideoAnalysis`: find the index of the entry in
`getAllVideos()` (`'Video not found'` rethrown as
`'Failed to update video analysis'` when absent), overwrite its
`analysisResult`, and persist the whole array. -/
def updateVideoAnalysisRun (st : Store) (videoId : String)
    (analysisResult : String) : Store × Except String Unit :=
  let (videos, st1) := getAllVideosRun st
  match videos.findIdx? (fun v => decide (v.id = videoId)) with
  | none => (st1, .error "Failed to update video analysis")
  | some videoIndex =>
      ({ st1 with raw := .good (setAnalysisAt analysisResult videos videoIndex) },
        .ok ())

/-- Directory constant `VIDEOS_DIRECTORY`. -/
def videosDirectory : String := "file:///documents/padeltech_videos/"

/-- Embedding of the private `addVideoToIndex`: re-read the index through
`getAllVideos()`, push the new record, persist. -/
def addVideoToIndex (st : Store) (video : StoredVideo) : Store :=
  let (videos, st1) := getAllVideosRun st
  { st1 with raw := .good (videos ++ [video]) }

/-- Embedding of `saveVideo`, native branch: generate the id from
`Date.now()`, build the destination path `shotType_id.mp4` inside the
videos directory, copy the bytes (a failing `copyAsync` is rethrown by
the catch as `'Failed to save video'` before the index is touched), then
record the entry through `addVideoToIndex`. -/
def saveVideoRun (st : Store) (videoUri : String) (metadata : VideoMetadata)
    (now : ℤ) : Store × Except String StoredVideo :=
  let videoId := toString now
  let fileName := metadata.shotType ++ "_" ++ videoId ++ ".mp4"
  let destinationUri := videosDirectory ++ fileName
  if videoUri ∈ st.failCopy then
    (st, .error "Failed to save video")
  else
    let st1 := { st with files := destinationUri :: st.files }
    let storedVideo : StoredVideo :=
      { id := videoId
        uri := destinationUri
        shotType := metadata.shotType
        fileName := fileName
        timestamp := metadata.timestamp
        duration := metadata.duration
        size := metadata.size
        analysisResult := metadata.analysisResult }
    (addVideoToIndex st1 storedVideo, .ok storedVideo)

/-- The `for (const video of videosToDelete) await this.deleteVideo(video.id)`
loop of `cleanupOldVideos`: a thrown error propagates immediately,
abandoning the rest of the list. -/
def deleteExpiredLoop : Store → List String → Store × Except String Unit
  | st, [] => (st, .ok ())
  | st, videoId :: rest =>
      match deleteVideoRun st videoId with
      | (st2, .ok _) => deleteExpiredLoop st2 rest
      | (st2, .error e) => (st2, .error e)

/-- Age threshold in milliseconds: `maxAgeDays * 24 * 60 * 60 * 1000`. -/
def maxAgeMsOf (maxAgeDays : ℤ) : ℤ := maxAgeDays * 24 * 60 * 60 * 1000

/-- Strict expiry test of `cleanupOldVideos`:
`(now - video.timestamp) > maxAgeMs`. -/
def isExpired (now maxAgeDays : ℤ) (v : StoredVideo) : Prop :=
  now - v.timestamp > maxAgeMsOf maxAgeDays

instance (now maxAgeDays : ℤ) : DecidablePred (isExpired now maxAgeDays) :=
  fun _ => inferInstanceAs (Decidable (_ > _))

/-- Embedding of `cleanupOldVideos`: select the entries strictly older
than the threshold, delete them one by one, and return their number; any
error reaching the outer catch makes the call return 0, keeping whatever
deletions already went through. -/
def cleanupOldVideosRun (st : Store) (now maxAgeDays : ℤ) : Store × ℕ :=
  let (videos, st1) := getAllVideosRun st
  let videosToDelete := videos.filter (fun v => decide (isExpired now maxAgeDays v))
  match deleteExpiredLoop st1 (videosToDelete.map (fun v => v.id)) with
  | (st2, .ok _) => (st2, videosToDelete.length)
  | (st2, .error _) => (st2, 0)

/-! ### Concrete stores used as test inputs -/

def c4Video : StoredVideo :=
  ⟨"1", "u1", "derecha", "derecha_1.mp4", 1000, 5, 100, none⟩

def c4Store : Store := ⟨RawIndex.good [c4Video], ["u1"], [], []⟩

def c4StoreAfter : Store := ⟨RawIndex.good [], [], [], []⟩

def c6Old : StoredVideo :=
  ⟨"1", "u1", "derecha", "derecha_1.mp4", 1000, 5, 100, none⟩

def c6Bad : StoredVideo :=
  ⟨"2", "u2", "reves", "reves_2.mp4", 2000, 5, 100, none⟩

def c6Store : Store := ⟨RawIndex.good [c6Old, c6Bad], ["u1", "u2"], ["u2"], []⟩

def c7Store : Store := ⟨RawIndex.good [], [], [], ["file:///tmp/capture.mp4"]⟩

def c7Meta : VideoMetadata := ⟨"derecha", 99, 5, 100, none⟩

def c8Old : StoredVideo :=
  ⟨"1", "u1", "derecha", "derecha_1.mp4", 5961600000, 5, 100, none⟩

def c8New : StoredVideo :=
  ⟨"2", "u2", "reves", "reves_2.mp4", 6134400000, 5, 100, none⟩

def c8Store : Store := ⟨RawIndex.good [c8Old, c8New], ["u1", "u2"], [], []⟩

def c8EmptyStore : Store := ⟨RawIndex.good [], [], [], []⟩

def c9Gone : StoredVideo :=
  ⟨"1", "u1", "derecha", "derecha_1.mp4", 1000, 5, 100, none⟩

def c9Target : StoredVideo :=
  ⟨"2", "u2", "reves", "reves_2.mp4", 2000, 5, 100, none⟩

def c9Store : Store := ⟨RawIndex.good [c9Gone, c9Target], ["u2"], [], []⟩

def c9WitnessA : StoredVideo :=
  ⟨"1", "u1", "derecha", "derecha_1.mp4", 1000, 5, 100, none⟩

def c9WitnessB : StoredVideo :=
  ⟨"2", "u2", "reves", "reves_2.mp4", 2000, 5, 100, none⟩

def c9WitnessStore : Store :=
  ⟨RawIndex.good [c9WitnessA, c9WitnessB], ["u1", "u2"], [], []⟩

/-! ### Helper lemmas: trend classifiers -/

/-- With at least three samples the classifier compares the first and the
last of the final three, with a strict ±5 margin. -/
lemma trend_append_three (p : List ℤ) (a b c : ℤ) :
    calculateImprovementTrend (p ++ [a, b, c]) =
      if c > a + 5 then Trend.improving
      else if c < a - 5 then Trend.declining
      else Trend.stable := by
  have h1 : ¬ (p ++ [a, b, c]).length < 3 := by simp
  have h2 : (p ++ [a, b, c]).length - 3 = p.length := by simp
  simp only [calculateImprovementTrend, if_neg h1, h2, List.drop_left]
  rfl

/-- The backend `calculateTrend` agrees with the client
`calculateImprovementTrend` on the projected score list. -/
lemma calculateTrend_eq_calculateImprovementTrend (l : List AnalysisDoc) :
    calculateTrend l =
      calculateImprovementTrend (l.map (fun d => d.overallScore)) := by
  by_cases h0 : l.length = 0
  · rw [List.length_eq_zero] at h0
    subst h0
    rfl
  · have hmaplen : (l.map (fun d => d.overallScore)).length = l.length := by simp
    have hdm :
        (l.map (fun d => d.overallScore)).drop (l.length - 3) =
          (l.drop (l.length - 3)).map (fun d => d.overallScore) := by
      simp [List.map_drop]
    by_cases h3 : l.length < 3
    · have hlen : ((l.drop (l.length - 3)).map (fun d => d.overallScore)).length < 3 := by
        simp only [List.length_map, List.length_drop]
        omega
      simp only [calculateTrend, calculateImprovementTrend, if_neg h0, hmaplen,
        if_pos h3, if_pos hlen]
    · have hlen : ((l.drop (l.length - 3)).map (fun d => d.overallScore)).length = 3 := by
        simp only [List.length_map, List.length_drop]
        omega
      have hlen' : ¬ ((l.drop (l.length - 3)).map (fun d => d.overallScore)).length < 3 := by
        omega
      simp only [calculateTrend, calculateImprovementTrend, if_neg h0, hmaplen,
        if_neg h3, if_neg hlen', hdm, hlen]
      norm_num

/-! ### Helper lemmas: streaming aggregates -/

/-- Folding invariant of `updateStats` starting from the schema defaults:
the count tracks the length, the mean times the count tracks the sum, and
the best tracks the running max. -/
lemma recordScores_invariant (scores : List ℚ) :
    (recordScores scores).totalAnalyses = scores.length ∧
    (recordScores scores).averageScore * (scores.length : ℚ) = scores.sum ∧
    (recordScores scores).bestScore = scores.foldl max 0 := by
  induction scores using List.reverseRecOn with
  | nil => simp [recordScores, initialStats]
  | append_singleton l x ih =>
      obtain ⟨hcount, havg, hbest⟩ := ih
      have hrec : recordScores (l ++ [x]) = updateStats (recordScores l) x := by
        simp [recordScores, List.foldl_append]
      refine ⟨?_, ?_, ?_⟩
      · simp [hrec, updateStats, hcount]
      · have hne : ((l.length : ℚ) + 1) ≠ 0 := by positivity
        simp only [hrec, updateStats, hcount, List.sum_append, List.sum_cons,
          List.sum_nil, add_zero, List.length_append, List.length_cons,
          List.length_nil]
        push_cast
        rw [add_sub_cancel_right, div_mul_cancel₀ _ hne, havg]
      · simp only [hrec, updateStats, hbest, List.foldl_append, List.foldl_cons,
          List.foldl_nil]
        rcases le_or_lt x (l.foldl max 0) with h | h
        · rw [if_neg (not_lt.mpr h), max_eq_left h]
        · rw [if_pos h, max_eq_right h.le]

/-- Folding `max` from a seed either returns the seed or a list element. -/
lemma foldl_max_mem : ∀ (l : List ℚ) (a : ℚ), l.foldl max a = a ∨ l.foldl max a ∈ l
  | [], _ => Or.inl rfl
  | y :: t, a => by
      rcases foldl_max_mem t (max a y) with h | h
      · rcases max_choice a y with hm | hm
        · exact Or.inl (by rw [List.foldl_cons, h, hm])
        · exact Or.inr (by rw [List.foldl_cons, h, hm]; exact List.mem_cons_self _ _)
      · exact Or.inr (List.mem_cons_of_mem _ h)

/-- Folding `max` bounds the seed and every element from above. -/
lemma le_foldl_max : ∀ (l : List ℚ) (a : ℚ),
    a ≤ l.foldl max a ∧ ∀ x ∈ l, x ≤ l.foldl max a
  | [], a => ⟨le_refl a, by simp⟩
  | y :: t, a => by
      obtain ⟨hseed, hmem⟩ := le_foldl_max t (max a y)
      refine ⟨le_trans (le_max_left a y) hseed, ?_⟩
      intro x hx
      rcases List.mem_cons.mp hx with rfl | hx
      · exact le_trans (le_max_right a x) hseed
      · exact hmem x hx

/-! ### Helper lemmas: the video store -/

/-- Well-formedness of a store under the index `videos`: the persisted
index parses to `videos`, every entry's backing file exists, ids and uris
are pairwise distinct, and the file list has no duplicates. -/
def StoreOK (videos : List StoredVideo) (st : Store) : Prop :=
  st.raw = RawIndex.good videos ∧
  (∀ v ∈ videos, v.uri ∈ st.files) ∧
  (videos.map (fun v => v.id)).Nodup ∧
  (videos.map (fun v => v.uri)).Nodup ∧
  st.files.Nodup

instance (videos : List StoredVideo) (st : Store) : Decidable (StoreOK videos st) :=
  inferInstanceAs (Decidable (_ ∧ _))

/-- Sorting permutes, hence preserves membership. -/
lemma mem_sortByTimestampDesc {v : StoredVideo} {l : List StoredVideo} :
    v ∈ sortByTimestampDesc l ↔ v ∈ l :=
  List.Perm.mem_iff (List.perm_insertionSort tsDesc l)

/-- On a consistent store the reconciliation pass of `getAllVideos` keeps
every entry and does not rewrite the index; the call returns the sorted
entries and the unchanged store. -/
lemma getAllVideosRun_consistent {videos : List StoredVideo} {st : Store}
    (hraw : st.raw = RawIndex.good videos)
    (hcons : ∀ v ∈ videos, v.uri ∈ st.files) :
    getAllVideosRun st = (sortByTimestampDesc videos, st) := by
  have hfilter : videos.filter (fun v => decide (v.uri ∈ st.files)) = videos :=
    List.filter_eq_self.mpr (fun v hv => by simpa using hcons v hv)
  have hany : videos.any (fun v => decide (v.uri ∉ st.files)) = false := by
    simp only [List.any_eq_false, decide_eq_true_eq]
    intro v hv
    exact fun hn => hn (hcons v hv)
  simp only [getAllVideosRun, getAllVideosTry, hraw, hfilter, hany, if_neg Bool.false_ne_true]

/-- The reconciliation pass never touches the files on disk nor the
failure environment. -/
lemma getAllVideosRun_env (st : Store) :
    (getAllVideosRun st).2.files = st.files ∧
    (getAllVideosRun st).2.failDelete = st.failDelete ∧
    (getAllVideosRun st).2.failCopy = st.failCopy := by
  unfold getAllVideosRun getAllVideosTry
  rcases st with ⟨raw, files, failD, failC⟩
  rcases raw with _ | _ | videos
  · exact ⟨rfl, rfl, rfl⟩
  · exact ⟨rfl, rfl, rfl⟩
  · dsimp only
    split <;> exact ⟨rfl, rfl, rfl⟩

/-- The list returned by `getAllVideos` is sorted newest-first. -/
lemma getAllVideosRun_pairwise (st : Store) :
    ((getAllVideosRun st).1).Pairwise tsDesc := by
  unfold getAllVideosRun getAllVideosTry
  rcases st with ⟨raw, files, failD, failC⟩
  rcases raw with _ | _ | videos
  · exact List.Pairwise.nil
  · exact List.Pairwise.nil
  · exact List.sorted_insertionSort tsDesc _

/-- On a list with pairwise-distinct ids, `find?` by the id of a member
returns exactly that member. -/
lemma find?_by_id_of_mem {videos : List StoredVideo} {v : StoredVideo}
    (hnd : (videos.map (fun w => w.id)).Nodup) (hv : v ∈ videos) :
    videos.find? (fun w => decide (w.id = v.id)) = some v := by
  cases hfind : videos.find? (fun w => decide (w.id = v.id)) with
  | none =>
      rw [List.find?_eq_none] at hfind
      exact absurd (by simp : decide (v.id = v.id) = true) (hfind v hv)
  | some w =>
      have hw : w ∈ videos := List.mem_of_find?_eq_some hfind
      have hid : w.id = v.id := by simpa using List.find?_some hfind
      rw [List.inj_on_of_nodup_map hnd hw hv hid]

/-- Distinct entries of a uri-nodup list have distinct uris. -/
lemma uri_injective {videos : List StoredVideo} {v w : StoredVideo}
    (hnd : (videos.map (fun u => u.uri)).Nodup)
    (hv : v ∈ videos) (hw : w ∈ videos) (hne : v ≠ w) : v.uri ≠ w.uri :=
  fun h => hne (List.inj_on_of_nodup_map hnd hv hw h)

/-- Exact behaviour of `deleteVideo` on a well-formed store when the
target id belongs to entry `v` and deleting `v`'s file succeeds: the file
is erased, the persisted index becomes the sorted list without `v`, and
the call reports success. -/
lemma deleteVideoRun_found {videos : List StoredVideo} {st : Store}
    {v : StoredVideo} (hOK : StoreOK videos st) (hv : v ∈ videos)
    (hfd : v.uri ∉ st.failDelete) :
    deleteVideoRun st v.id =
      ({ st with
          files := st.files.erase v.uri
          raw := RawIndex.good
            ((sortByTimestampDesc videos).filter
              (fun w => decide (¬ w.id = v.id))) },
        Except.ok ()) := by
  obtain ⟨hraw, hcons, hids, huris, hfiles⟩ := hOK
  have hsortnd : ((sortByTimestampDesc videos).map (fun w => w.id)).Nodup := by
    refine (List.Perm.nodup_iff ?_).mpr hids
    exact (List.perm_insertionSort tsDesc videos).map _
  have hvs : v ∈ sortByTimestampDesc videos := mem_sortByTimestampDesc.mpr hv
  have hfind := find?_by_id_of_mem hsortnd hvs
  simp only [deleteVideoRun, getAllVideosRun_consistent hraw hcons, hfind,
    if_pos (hcons v hv), if_neg hfd]

/-- Error behaviour of `deleteVideo` on a well-formed store when deleting
the target's file fails: the error is reported and the store is exactly
as before the call. -/
lemma deleteVideoRun_fail {videos : List StoredVideo} {st : Store}
    {v : StoredVideo} (hOK : StoreOK videos st) (hv : v ∈ videos)
    (hfd : v.uri ∈ st.failDelete) :
    deleteVideoRun st v.id = (st, Except.error "Failed to delete video") := by
  obtain ⟨hraw, hcons, hids, huris, hfiles⟩ := hOK
  have hsortnd : ((sortByTimestampDesc videos).map (fun w => w.id)).Nodup := by
    refine (List.Perm.nodup_iff ?_).mpr hids
    exact (List.perm_insertionSort tsDesc videos).map _
  have hvs : v ∈ sortByTimestampDesc videos := mem_sortByTimestampDesc.mpr hv
  have hfind := find?_by_id_of_mem hsortnd hvs
  simp only [deleteVideoRun, getAllVideosRun_consistent hraw hcons, hfind,
    if_pos (hcons v hv), if_pos hfd]

/-- Invariants and membership accounting across one successful delete. -/
lemma deleteVideoRun_found_spec {videos : List StoredVideo} {st : Store}
    {v : StoredVideo} (hOK : StoreOK videos st) (hv : v ∈ videos)
    (hfd : v.uri ∉ st.failDelete) :
    ∃ videosAfter stAfter,
      deleteVideoRun st v.id = (stAfter, Except.ok ()) ∧
      StoreOK videosAfter stAfter ∧
      stAfter.failDelete = st.failDelete ∧
      stAfter.failCopy = st.failCopy ∧
      (∀ w, w ∈ videosAfter ↔ w ∈ videos ∧ w.id ≠ v.id) ∧
      (∀ u, u ∈ stAfter.files ↔ u ∈ st.files ∧ u ≠ v.uri) := by
  obtain ⟨hraw, hcons, hids, huris, hfiles⟩ := hOK
  have hperm : (sortByTimestampDesc videos).Perm videos :=
    List.perm_insertionSort tsDesc videos
  refine ⟨(sortByTimestampDesc videos).filter (fun w => decide (¬ w.id = v.id)),
    { st with
        files := st.files.erase v.uri
        raw := RawIndex.good
          ((sortByTimestampDesc videos).filter (fun w => decide (¬ w.id = v.id))) },
    deleteVideoRun_found ⟨hraw, hcons, hids, huris, hfiles⟩ hv hfd, ?_, rfl, rfl, ?_, ?_⟩
  · have hmem : ∀ w, w ∈ (sortByTimestampDesc videos).filter
        (fun u => decide (¬ u.id = v.id)) ↔ w ∈ videos ∧ w.id ≠ v.id := by
      intro w
      rw [List.mem_filter, hperm.mem_iff]
      simp
    have hsublist :
        ((sortByTimestampDesc videos).filter (fun u => decide (¬ u.id = v.id))).Sublist
          (sortByTimestampDesc videos) := List.filter_sublist _
    refine ⟨rfl, ?_, ?_, ?_, hfiles.erase v.uri⟩
    · intro w hw
      obtain ⟨hwv, hwid⟩ := (hmem w).mp hw
      have hne : w ≠ v := fun h => hwid (by rw [h])
      have huri : w.uri ≠ v.uri := uri_injective huris hwv hv hne
      exact (List.mem_erase_of_ne huri).mpr (hcons w hwv)
    · refine List.Nodup.sublist (hsublist.map _) ?_
      exact (List.Perm.nodup_iff (hperm.map _)).mpr hids
    · refine List.Nodup.sublist (hsublist.map _) ?_
      exact (List.Perm.nodup_iff (hperm.map _)).mpr huris
  · intro w
    rw [List.mem_filter, hperm.mem_iff]
    simp
  · intro u
    rw [List.Nodup.mem_erase_iff hfiles]
    exact and_comm

/-- Running the deletion loop over entries of a well-formed store, all of
whose files delete successfully, deletes exactly those entries and their
files and preserves well-formedness. -/
lemma deleteExpiredLoop_ok :
    ∀ (vs videos : List StoredVideo) (st : Store),
      StoreOK videos st →
      (∀ v ∈ vs, v ∈ videos) →
      ((vs.map (fun v => v.id)).Nodup) →
      (∀ v ∈ vs, v.uri ∉ st.failDelete) →
      ∃ videosAfter stAfter,
        deleteExpiredLoop st (vs.map (fun v => v.id)) = (stAfter, Except.ok ()) ∧
        StoreOK videosAfter stAfter ∧
        stAfter.failDelete = st.failDelete ∧
        stAfter.failCopy = st.failCopy ∧
        (∀ w, w ∈ videosAfter ↔ (w ∈ videos ∧ ∀ v ∈ vs, w.id ≠ v.id)) ∧
        (∀ u, u ∈ stAfter.files ↔ (u ∈ st.files ∧ ∀ v ∈ vs, u ≠ v.uri))
  | [], videos, st => by
      intro hOK _ _ _
      exact ⟨videos, st, rfl, hOK, rfl, rfl, by simp, by simp⟩
  | v :: vs, videos, st => by
      intro hOK hmem hnd hfd
      have hv : v ∈ videos := hmem v (List.mem_cons_self _ _)
      obtain ⟨videos1, st1, heq1, hOK1, hfd1, hfc1, hmem1, hfiles1⟩ :=
        deleteVideoRun_found_spec hOK hv (hfd v (List.mem_cons_self _ _))
      have hndtail : (vs.map (fun w => w.id)).Nodup := (List.nodup_cons.mp hnd).2
      have hidhead : v.id ∉ vs.map (fun w => w.id) := (List.nodup_cons.mp hnd).1
      obtain ⟨videosAfter, stAfter, heq2, hOK2, hfd2, hfc2, hmem2, hfiles2⟩ :=
        deleteExpiredLoop_ok vs videos1 st1 hOK1
          (fun w hw => (hmem1 w).mpr
            ⟨hmem w (List.mem_cons_of_mem _ hw), fun h => hidhead (h ▸ List.mem_map_of_mem _ hw)⟩)
          hndtail
          (fun w hw => by
            rw [hfd1]
            exact hfd w (List.mem_cons_of_mem _ hw))
      refine ⟨videosAfter, stAfter, ?_, hOK2, hfd2.trans hfd1, hfc2.trans hfc1, ?_, ?_⟩
      · simpa only [List.map_cons, deleteExpiredLoop, heq1] using heq2
      · intro w
        rw [hmem2 w, hmem1 w]
        constructor
        · rintro ⟨⟨hwv, hwid⟩, hrest⟩
          refine ⟨hwv, ?_⟩
          intro u hu
          rcases List.mem_cons.mp hu with rfl | hu
          · exact hwid
          · exact hrest u hu
        · rintro ⟨hwv, hall⟩
          exact ⟨⟨hwv, hall v (List.mem_cons_self _ _)⟩,
            fun u hu => hall u (List.mem_cons_of_mem _ hu)⟩
      · intro u
        rw [hfiles2 u, hfiles1 u]
        constructor
        · rintro ⟨⟨hu, huv⟩, hrest⟩
          refine ⟨hu, ?_⟩
          intro w hw
          rcases List.mem_cons.mp hw with rfl | hw
          · exact huv
          · exact hrest w hw
        · rintro ⟨hu, hall⟩
          exact ⟨⟨hu, hall v (List.mem_cons_self _ _)⟩,
            fun w hw => hall w (List.mem_cons_of_mem _ hw)⟩

/-- Running the deletion loop when the file of entry `bad` fails to
delete: the entries before `bad` are deleted, the error then propagates
immediately, and the entries after `bad` are never attempted. -/
lemma deleteExpiredLoop_abort :
    ∀ (vsPre : List StoredVideo) (bad : StoredVideo) (vsPost : List StoredVideo)
      (videos : List StoredVideo) (st : Store),
      StoreOK videos st →
      (∀ v ∈ vsPre ++ bad :: vsPost, v ∈ videos) →
      (((vsPre ++ bad :: vsPost).map (fun v => v.id)).Nodup) →
      (∀ v ∈ vsPre, v.uri ∉ st.failDelete) →
      bad.uri ∈ st.failDelete →
      ∃ videosAfter stAfter,
        deleteExpiredLoop st ((vsPre ++ bad :: vsPost).map (fun v => v.id)) =
          (stAfter, Except.error "Failed to delete video") ∧
        StoreOK videosAfter stAfter ∧
        stAfter.failDelete = st.failDelete ∧
        (∀ w, w ∈ videosAfter ↔ (w ∈ videos ∧ ∀ v ∈ vsPre, w.id ≠ v.id)) ∧
        (∀ u, u ∈ stAfter.files ↔ (u ∈ st.files ∧ ∀ v ∈ vsPre, u ≠ v.uri))
  | [], bad, vsPost, videos, st => by
      intro hOK hmem _ _ hbad
      have hb : bad ∈ videos := hmem bad (by simp)
      refine ⟨videos, st, ?_, hOK, rfl, by simp, by simp⟩
      simp only [List.nil_append, List.map_cons, deleteExpiredLoop,
        deleteVideoRun_fail hOK hb hbad]
  | v :: vsPre, bad, vsPost, videos, st => by
      intro hOK hmem hnd hfd hbad
      have hv : v ∈ videos := hmem v (List.mem_cons_self _ _)
      obtain ⟨videos1, st1, heq1, hOK1, hfd1, hfc1, hmem1, hfiles1⟩ :=
        deleteVideoRun_found_spec hOK hv (hfd v (List.mem_cons_self _ _))
      have hndtail : ((vsPre ++ bad :: vsPost).map (fun w => w.id)).Nodup :=
        (List.nodup_cons.mp hnd).2
      have hidhead : v.id ∉ (vsPre ++ bad :: vsPost).map (fun w => w.id) :=
        (List.nodup_cons.mp hnd).1
      obtain ⟨videosAfter, stAfter, heq2, hOK2, hfdA, hmem2, hfiles2⟩ :=
        deleteExpiredLoop_abort vsPre bad vsPost videos1 st1 hOK1
          (fun w hw => (hmem1 w).mpr
            ⟨hmem w (List.mem_cons_of_mem _ hw),
              fun h => hidhead (h ▸ List.mem_map_of_mem _ hw)⟩)
          hndtail
          (fun w hw => by
            rw [hfd1]
            exact hfd w (List.mem_cons_of_mem _ hw))
          (by rw [hfd1]; exact hbad)
      refine ⟨videosAfter, stAfter, ?_, hOK2, hfdA.trans hfd1, ?_, ?_⟩
      · simpa only [List.cons_append, List.map_cons, deleteExpiredLoop, heq1] using heq2
      · intro w
        rw [hmem2 w, hmem1 w]
        constructor
        · rintro ⟨⟨hwv, hwid⟩, hrest⟩
          refine ⟨hwv, ?_⟩
          intro u hu
          rcases List.mem_cons.mp hu with rfl | hu
          · exact hwid
          · exact hrest u hu
        · rintro ⟨hwv, hall⟩
          exact ⟨⟨hwv, hall v (List.mem_cons_self _ _)⟩,
            fun u hu => hall u (List.mem_cons_of_mem _ hu)⟩
      · intro u
        rw [hfiles2 u, hfiles1 u]
        constructor
        · rintro ⟨⟨hu, huv⟩, hrest⟩
          refine ⟨hu, ?_⟩
          intro w hw
          rcases List.mem_cons.mp hw with rfl | hw
          · exact huv
          · exact hrest w hw
        · rintro ⟨hu, hall⟩
          exact ⟨⟨hu, hall v (List.mem_cons_self _ _)⟩,
            fun w hw => hall w (List.mem_cons_of_mem _ hw)⟩

/-- When no entry carries the requested id, `deleteVideo` reports the
error and leaves a consistent store untouched. -/
lemma deleteVideoRun_not_found {videos : List StoredVideo} {st : Store}
    {videoId : String} (hraw : st.raw = RawIndex.good videos)
    (hcons : ∀ v ∈ videos, v.uri ∈ st.files)
    (hnone : ∀ v ∈ videos, v.id ≠ videoId) :
    deleteVideoRun st videoId = (st, Except.error "Failed to delete video") := by
  have hfind : (sortByTimestampDesc videos).find?
      (fun v => decide (v.id = videoId)) = none := by
    rw [List.find?_eq_none]
    intro x hx
    simpa using hnone x (mem_sortByTimestampDesc.mp hx)
  simp only [deleteVideoRun, getAllVideosRun_consistent hraw hcons, hfind]

/-- Accumulator form: a successful `findIdx?` points at a position whose
element satisfies the predicate. -/
lemma findIdx?_go_spec {α : Type} {p : α → Bool} :
    ∀ (l : List α) (s i : ℕ), List.findIdx? p l s = some i →
      ∃ v j, l[j]? = some v ∧ p v = true ∧ i = s + j
  | [], s, i, h => by
      rw [List.findIdx?_nil] at h
      exact absurd h (by simp)
  | x :: xs, s, i, h => by
      rw [List.findIdx?_cons] at h
      by_cases hp : p x = true
      · rw [if_pos hp] at h
        have hsi : s = i := Option.some.inj h
        exact ⟨x, 0, by simp, hp, by omega⟩
      · rw [if_neg hp] at h
        obtain ⟨v, j, hget, hpv, hij⟩ := findIdx?_go_spec xs (s + 1) i h
        exact ⟨v, j + 1, by simpa using hget, hpv, by omega⟩

/-- A successful `findIdx?` points at a position whose element satisfies
the predicate. -/
lemma findIdx?_some_spec {α : Type} {p : α → Bool} {l : List α} {i : ℕ}
    (h : l.findIdx? p = some i) : ∃ v, l[i]? = some v ∧ p v = true := by
  obtain ⟨v, j, hget, hpv, hij⟩ := findIdx?_go_spec l 0 i h
  have : i = j := by omega
  subst this
  exact ⟨v, hget, hpv⟩

/-- Positions other than the updated one are untouched by the in-place
`analysisResult` assignment. -/
lemma setAnalysisAt_getElem?_ne (a : String) :
    ∀ (l : List StoredVideo) (i j : ℕ), j ≠ i →
      (setAnalysisAt a l i)[j]? = l[j]?
  | [], _, _, _ => rfl
  | v :: rest, 0, j, h => by
      obtain ⟨k, rfl⟩ : ∃ k, j = k + 1 := ⟨j - 1, by omega⟩
      simp [setAnalysisAt]
  | v :: rest, n + 1, 0, _ => by
      simp [setAnalysisAt]
  | v :: rest, n + 1, k + 1, h => by
      simp only [setAnalysisAt, List.getElem?_cons_succ]
      exact setAnalysisAt_getElem?_ne a rest n k (by omega)

/-- The updated position holds the original entry with only its
`analysisResult` field replaced. -/
lemma setAnalysisAt_getElem?_eq (a : String) :
    ∀ (l : List StoredVideo) (i : ℕ) (v : StoredVideo), l[i]? = some v →
      (setAnalysisAt a l i)[i]? = some { v with analysisResult := some a }
  | [], i, v, h => by simp at h
  | w :: rest, 0, v, h => by
      simp only [List.getElem?_cons_zero, Option.some.injEq] at h
      subst h
      simp [setAnalysisAt]
  | w :: rest, n + 1, v, h => by
      simp only [List.getElem?_cons_succ] at h
      simp only [setAnalysisAt, List.getElem?_cons_succ]
      exact setAnalysisAt_getElem?_eq a rest n v h

/-! ### Claim theorems: C1 - C3 -/

/-- C1: the spec requires `Compare` with a previous `overallScore` of 0 to
return `improvementPercent = 0`, never `NaN`/`Infinity`.  The client
utility `calculateScoreImprovement` special-cases a zero previous score to
0 for every current score, but the backend route
(`src/backend/src/routes/analysis.js` lines 78-87) divides directly, so
at current 90 / previous 0 it computes and stores `Infinity`. -/
theorem C1_zero_previous_score_divergence :
    routeComparisonImprovement 90 0 = JSNum.posInf ∧
    routeComparisonImprovement 0 0 = JSNum.nan ∧
    calculateScoreImprovement 90 0 = 0 ∧
    ∀ overallScore : ℚ, calculateScoreImprovement overallScore 0 = 0 := by
  refine ⟨?_, ?_, ?_, fun overallScore => ?_⟩
  · norm_num [routeComparisonImprovement, routeImprovement, JSNum.sub, JSNum.div,
      JSNum.mul, JSNum.round]
  · norm_num [routeComparisonImprovement, routeImprovement, JSNum.sub, JSNum.div,
      JSNum.mul, JSNum.round]
  · norm_num [calculateScoreImprovement]
  · simp [calculateScoreImprovement]

/-- C2: the trend classifier returns `stable` on fewer than 3 samples;
otherwise, over the most recent 3 samples it returns `improving` exactly
when `last - first > 5` strictly, `declining` exactly when
`last - first < -5` strictly, and `stable` otherwise; a delta of exactly
±5 resolves to `stable`.  The backend `calculateTrend` implements the same
policy as the client `calculateImprovementTrend`. -/
theorem C2_trend_policy :
    (∀ scores : List ℤ, scores.length < 3 →
        calculateImprovementTrend scores = Trend.stable) ∧
    (∀ (p : List ℤ) (a b c : ℤ),
        calculateImprovementTrend (p ++ [a, b, c]) =
          if c - a > 5 then Trend.improving
          else if c - a < -5 then Trend.declining
          else Trend.stable) ∧
    (∀ (p : List ℤ) (a b : ℤ),
        calculateImprovementTrend (p ++ [a, b, a + 5]) = Trend.stable ∧
        calculateImprovementTrend (p ++ [a, b, a - 5]) = Trend.stable) ∧
    (∀ l : List AnalysisDoc,
        calculateTrend l =
          calculateImprovementTrend (l.map (fun d => d.overallScore))) := by
  have key : ∀ (p : List ℤ) (a b c : ℤ),
      calculateImprovementTrend (p ++ [a, b, c]) =
        if c - a > 5 then Trend.improving
        else if c - a < -5 then Trend.declining
        else Trend.stable := by
    intro p a b c
    rw [trend_append_three]
    have h1 : c > a + 5 ↔ c - a > 5 := by omega
    have h2 : c < a - 5 ↔ c - a < -5 := by omega
    by_cases hc1 : c - a > 5
    · rw [if_pos (h1.mpr hc1), if_pos hc1]
    · rw [if_neg (fun h => hc1 (h1.mp h)), if_neg hc1]
      by_cases hc2 : c - a < -5
      · rw [if_pos (h2.mpr hc2), if_pos hc2]
      · rw [if_neg (fun h => hc2 (h2.mp h)), if_neg hc2]
  refine ⟨?_, key, ?_, calculateTrend_eq_calculateImprovementTrend⟩
  · intro scores h
    simp [calculateImprovementTrend, if_pos h]
  · intro p a b
    constructor
    · rw [key]
      norm_num
    · rw [key]
      norm_num

/-- C2 witness: concrete samples at and around the boundary. -/
theorem C2_trend_policy_witness :
    ([70, 74] : List ℤ).length < 3 ∧
    calculateImprovementTrend [70, 74] = Trend.stable ∧
    calculateImprovementTrend [70, 74, 75] = Trend.stable ∧
    calculateImprovementTrend [70, 74, 76] = Trend.improving ∧
    calculateImprovementTrend [70, 74, 64] = Trend.declining ∧
    calculateTrend [⟨70⟩, ⟨74⟩, ⟨75⟩] = Trend.stable := by
  obtain ⟨hshort, happ, _, hagree⟩ := C2_trend_policy
  refine ⟨by decide, hshort [70, 74] (by decide), ?_, ?_, ?_, ?_⟩
  · have h := happ [] 70 74 75
    simpa using h
  · have h := happ [] 70 74 76
    simpa using h
  · have h := happ [] 70 74 64
    norm_num at h
    simpa using h
  · rw [hagree]
    decide

/-- C3: folding the streaming update (count, mean recurrence, running max)
over any history of nonnegative scores, starting from the defaults
(count 0, average 0, best 0), yields the count, the arithmetic mean and
the maximum of the full history. -/
theorem C3_streaming_aggregates (scores : List ℚ)
    (hnonneg : ∀ s ∈ scores, 0 ≤ s) (hne : scores ≠ []) :
    (recordScores scores).totalAnalyses = scores.length ∧
    (recordScores scores).averageScore = scores.sum / (scores.length : ℚ) ∧
    (recordScores scores).bestScore ∈ scores ∧
    ∀ s ∈ scores, s ≤ (recordScores scores).bestScore := by
  obtain ⟨hcount, havg, hbest⟩ := recordScores_invariant scores
  have hlenpos : 0 < scores.length := List.length_pos.mpr hne
  have hlenne : (scores.length : ℚ) ≠ 0 := by
    exact_mod_cast Nat.pos_iff_ne_zero.mp hlenpos
  refine ⟨hcount, ?_, ?_, ?_⟩
  · rw [eq_div_iff hlenne]
    exact havg
  · rcases foldl_max_mem scores 0 with hz | hm
    · obtain ⟨y, t, rfl⟩ : ∃ y t, scores = y :: t := by
        rcases scores with _ | ⟨y, t⟩
        · exact absurd rfl hne
        · exact ⟨y, t, rfl⟩
      have hy0 : 0 ≤ y := hnonneg y (List.mem_cons_self _ _)
      have hyb : y ≤ (y :: t).foldl max 0 := (le_foldl_max (y :: t) 0).2 y (List.mem_cons_self _ _)
      have : (y :: t).foldl max 0 = y := le_antisymm (by rw [hz]; exact hy0) hyb
      rw [hbest, this]
      exact List.mem_cons_self _ _
    · rw [hbest]
      exact hm
  · intro s hs
    rw [hbest]
    exact (le_foldl_max scores 0).2 s hs

/-- C3 witness: recording `[70, 80, 90]` gives count 3, average 80,
best 90. -/
theorem C3_streaming_aggregates_witness :
    (∀ s ∈ ([70, 80, 90] : List ℚ), 0 ≤ s) ∧
    ([70, 80, 90] : List ℚ) ≠ [] ∧
    (recordScores [70, 80, 90]).totalAnalyses = 3 ∧
    (recordScores [70, 80, 90]).averageScore = 80 ∧
    (recordScores [70, 80, 90]).bestScore = 90 := by
  have h := C3_streaming_aggregates [70, 80, 90] (by norm_num) (by simp)
  refine ⟨by norm_num, by simp, by simpa using h.1, ?_, by decide⟩
  rw [h.2.1]
  norm_num

/-! ### Claim theorems: C4 - C10 -/

/-- C4 counterexample: the claim that `Delete(id)` called twice succeeds
both times is false — on a one-entry store the first call succeeds, the
second throws `Failed to delete video`. -/
theorem C4_delete_twice_not_idempotent :
    (deleteVideoRun c4Store "1").2 = Except.ok () ∧
    (deleteVideoRun (deleteVideoRun c4Store "1").1 "1").2 =
      Except.error "Failed to delete video" := by
  decide

/-- C4 amended: on a well-formed store, after a first successful
`deleteVideo(id)` the second call with the same id throws
`Failed to delete video`, but it leaves the store exactly as the first
call left it — so the index and files agree with calling once, only the
reported outcome differs. -/
theorem C4_delete_twice_amended (videos : List StoredVideo) (st st1 : Store)
    (videoId : String) (hOK : StoreOK videos st)
    (h1 : deleteVideoRun st videoId = (st1, Except.ok ())) :
    deleteVideoRun st1 videoId = (st1, Except.error "Failed to delete video") := by
  obtain ⟨hraw, hcons, hids, huris, hfiles⟩ := hOK
  cases hfind : (sortByTimestampDesc videos).find? (fun v => decide (v.id = videoId)) with
  | none =>
      have hnone : ∀ w ∈ videos, w.id ≠ videoId := by
        rw [List.find?_eq_none] at hfind
        intro w hw
        simpa using hfind w (mem_sortByTimestampDesc.mpr hw)
      rw [deleteVideoRun_not_found hraw hcons hnone] at h1
      exact absurd (congrArg Prod.snd h1) (by simp)
  | some v =>
      have hvmem : v ∈ videos :=
        mem_sortByTimestampDesc.mp (List.mem_of_find?_eq_some hfind)
      have hvid : v.id = videoId := by simpa using List.find?_some hfind
      subst hvid
      by_cases hfd : v.uri ∈ st.failDelete
      · have hfail := deleteVideoRun_fail ⟨hraw, hcons, hids, huris, hfiles⟩ hvmem hfd
        rw [hfail] at h1
        exact absurd (congrArg Prod.snd h1) (by simp)
      · obtain ⟨videos1, stA, heqA, hOK1, _, _, hmem1, _⟩ :=
          deleteVideoRun_found_spec ⟨hraw, hcons, hids, huris, hfiles⟩ hvmem hfd
        have hst1 : stA = st1 := congrArg Prod.fst (heqA.symm.trans h1)
        subst hst1
        obtain ⟨hrawA, hconsA, _, _, _⟩ := hOK1
        exact deleteVideoRun_not_found hrawA hconsA
          (fun w hw => ((hmem1 w).mp hw).2)

/-- C4 witness: the amended behaviour on the concrete one-entry store. -/
theorem C4_delete_twice_amended_witness :
    StoreOK [c4Video] c4Store ∧
    deleteVideoRun c4Store "1" = (c4StoreAfter, Except.ok ()) ∧
    deleteVideoRun c4StoreAfter "1" =
      (c4StoreAfter, Except.error "Failed to delete video") :=
  ⟨by decide, by decide,
    C4_delete_twice_amended [c4Video] c4Store c4StoreAfter "1" (by decide) (by decide)⟩

/-- C5 counterexample: with an unparseable persisted index, the inner
body of `getAllVideos` does throw a parse error, but the caller of
`getAllVideos` receives the empty list and no error at all — the corrupt
index is not surfaced as `IndexCorrupt`. -/
theorem C5_corrupt_index_silently_empty :
    getAllVideosTry ⟨RawIndex.corrupt, ["u1"], [], []⟩ =
      Except.error "SyntaxError: JSON parse" ∧
    getAllVideosRun ⟨RawIndex.corrupt, ["u1"], [], []⟩ =
      ([], ⟨RawIndex.corrupt, ["u1"], [], []⟩) := by
  decide

/-- C5 amended: whenever the persisted index exists but cannot be
parsed, the `JSON.parse` failure is caught inside `getAllVideos`, which
returns the empty list to its caller and leaves the store untouched; no
error reaches the caller. -/
theorem C5_corrupt_index_amended (files failD failC : List String) :
    getAllVideosTry ⟨RawIndex.corrupt, files, failD, failC⟩ =
      Except.error "SyntaxError: JSON parse" ∧
    getAllVideosRun ⟨RawIndex.corrupt, files, failD, failC⟩ =
      ([], ⟨RawIndex.corrupt, files, failD, failC⟩) :=
  ⟨rfl, rfl⟩

/-- C6 counterexample: with two expired entries where deleting the first
attempted one fails, the sweep returns 0 — not a success/failure
aggregate — and the other expired entry is left undeleted, its entry and
file untouched. -/
theorem C6_sweep_abort_on_failure :
    isExpired (maxAgeMsOf 30 + 5000) 30 c6Old ∧
    isExpired (maxAgeMsOf 30 + 5000) 30 c6Bad ∧
    cleanupOldVideosRun c6Store (maxAgeMsOf 30 + 5000) 30 = (c6Store, 0) := by
  decide

/-- C6 amended: when deleting one expired entry fails, the exception
aborts the loop: expired entries after the failing one are not deleted
(entry and file both survive), the failing entry itself survives, and the
sweep's catch makes the call return 0 regardless of earlier successes. -/
theorem C6_sweep_abort_amended (videos : List StoredVideo) (st : Store)
    (now maxAgeDays : ℤ)
    (vsPre : List StoredVideo) (bad : StoredVideo) (vsPost : List StoredVideo)
    (hOK : StoreOK videos st)
    (hsplit : (sortByTimestampDesc videos).filter
        (fun v => decide (isExpired now maxAgeDays v)) = vsPre ++ bad :: vsPost)
    (hpre : ∀ v ∈ vsPre, v.uri ∉ st.failDelete)
    (hbad : bad.uri ∈ st.failDelete) :
    ∃ videosAfter stAfter,
      cleanupOldVideosRun st now maxAgeDays = (stAfter, 0) ∧
      stAfter.raw = RawIndex.good videosAfter ∧
      bad ∈ videosAfter ∧ bad.uri ∈ stAfter.files ∧
      (∀ v ∈ vsPost, v ∈ videosAfter ∧ v.uri ∈ stAfter.files) := by
  obtain ⟨hraw, hcons, hids, huris, hfiles⟩ := hOK
  have hrun := getAllVideosRun_consistent hraw hcons
  have hpermmap : ∀ (f : StoredVideo → String),
      ((sortByTimestampDesc videos).map f).Perm (videos.map f) :=
    fun f => (List.perm_insertionSort tsDesc videos).map f
  have hsubmem : ∀ v ∈ vsPre ++ bad :: vsPost, v ∈ videos := by
    intro v hv
    rw [← hsplit] at hv
    exact mem_sortByTimestampDesc.mp (List.mem_filter.mp hv).1
  have hsubnd : ((vsPre ++ bad :: vsPost).map (fun v => v.id)).Nodup := by
    rw [← hsplit]
    exact List.Nodup.sublist ((List.filter_sublist _).map _)
      (((hpermmap _).nodup_iff).mpr hids)
  obtain ⟨videosAfter, stAfter, heql, hOKA, hfdA, hmemA, hfilesA⟩ :=
    deleteExpiredLoop_abort vsPre bad vsPost videos st
      ⟨hraw, hcons, hids, huris, hfiles⟩ hsubmem hsubnd hpre hbad
  have hdisj : ∀ v ∈ vsPre, ∀ w, w ∈ bad :: vsPost → w.id ≠ v.id := by
    have hnd' := hsubnd
    rw [List.map_append] at hnd'
    obtain ⟨-, -, hdis⟩ := List.nodup_append.mp hnd'
    intro v hv w hw heq
    exact hdis (List.mem_map_of_mem _ hv) (heq ▸ List.mem_map_of_mem _ hw)
  have hne_entry : ∀ w, w ∈ bad :: vsPost → ∀ v ∈ vsPre, w.uri ≠ v.uri := by
    intro w hw v hv
    have hwv : w ∈ videos := by
      rcases List.mem_cons.mp hw with rfl | hw'
      · exact hsubmem w (by simp)
      · exact hsubmem w (List.mem_append_right _ (List.mem_cons_of_mem _ hw'))
    have hvv : v ∈ videos := hsubmem v (List.mem_append_left _ hv)
    have hne : w ≠ v := fun h => hdisj v hv w hw (by rw [h])
    exact uri_injective huris hwv hvv hne
  refine ⟨videosAfter, stAfter, ?_, hOKA.1, ?_, ?_, ?_⟩
  · simp only [cleanupOldVideosRun, hrun, hsplit, heql]
  · exact (hmemA bad).mpr ⟨hsubmem bad (by simp),
      fun v hv => hdisj v hv bad (List.mem_cons_self _ _)⟩
  · refine (hfilesA bad.uri).mpr ⟨hcons bad (hsubmem bad (by simp)), ?_⟩
    exact fun v hv => hne_entry bad (List.mem_cons_self _ _) v hv
  · intro v hv
    have hvv : v ∈ videos :=
      hsubmem v (List.mem_append_right _ (List.mem_cons_of_mem _ hv))
    refine ⟨(hmemA v).mpr ⟨hvv, ?_⟩, (hfilesA v.uri).mpr ⟨hcons v hvv, ?_⟩⟩
    · exact fun u hu => hdisj u hu v (List.mem_cons_of_mem _ hv)
    · exact fun u hu => hne_entry v (List.mem_cons_of_mem _ hv) u hu

/-- C6 witness: the amended behaviour on the concrete two-entry store
whose newer entry fails to delete. -/
theorem C6_sweep_abort_amended_witness :
    (StoreOK [c6Old, c6Bad] c6Store ∧
      (sortByTimestampDesc [c6Old, c6Bad]).filter
        (fun v => decide (isExpired (maxAgeMsOf 30 + 5000) 30 v)) =
          [] ++ c6Bad :: [c6Old] ∧
      c6Bad.uri ∈ c6Store.failDelete) ∧
    (∃ videosAfter stAfter,
      cleanupOldVideosRun c6Store (maxAgeMsOf 30 + 5000) 30 = (stAfter, 0) ∧
      stAfter.raw = RawIndex.good videosAfter ∧
      c6Bad ∈ videosAfter ∧ c6Bad.uri ∈ stAfter.files ∧
      (∀ v ∈ [c6Old], v ∈ videosAfter ∧ v.uri ∈ stAfter.files)) :=
  ⟨⟨by decide, by decide, by decide⟩,
    C6_sweep_abort_amended [c6Old, c6Bad] c6Store (maxAgeMsOf 30 + 5000) 30
      [] c6Bad [c6Old] (by decide) (by decide) (by decide) (by decide)⟩

/-- C7: `saveVideo` copies the bytes before touching the index: when the
copy fails the call reports `Failed to save video` and returns the store
completely unchanged (in particular the index gains no entry); when the
copy succeeds the new entry is appended to the index and its destination
file exists. -/
theorem C7_save_copy_before_index (st : Store) (videoUri : String)
    (metadata : VideoMetadata) (now : ℤ) :
    (videoUri ∈ st.failCopy →
      saveVideoRun st videoUri metadata now =
        (st, Except.error "Failed to save video")) ∧
    (videoUri ∉ st.failCopy →
      ∃ storedVideo videosAfter,
        (saveVideoRun st videoUri metadata now).2 = Except.ok storedVideo ∧
        (saveVideoRun st videoUri metadata now).1.raw =
          RawIndex.good videosAfter ∧
        storedVideo ∈ videosAfter ∧
        storedVideo.uri ∈ (saveVideoRun st videoUri metadata now).1.files) := by
  constructor
  · intro h
    simp only [saveVideoRun, if_pos h]
  · intro h
    simp only [saveVideoRun, if_neg h, addVideoToIndex]
    rcases hg : getAllVideosRun
        { st with files := (videosDirectory ++ (metadata.shotType ++ "_" ++ toString now ++ ".mp4")) :: st.files }
      with ⟨videos1, st1⟩
    have henv := getAllVideosRun_env
      { st with files := (videosDirectory ++ (metadata.shotType ++ "_" ++ toString now ++ ".mp4")) :: st.files }
    rw [hg] at henv
    refine ⟨_, videos1 ++ [_], rfl, rfl, List.mem_append_right _ (List.mem_cons_self _ _), ?_⟩
    rw [henv.1]
    exact List.mem_cons_self _ _

/-- C7 witness: a concrete store where the copy of the captured file
fails; the call errors and the store is unchanged. -/
theorem C7_save_copy_before_index_witness :
    "file:///tmp/capture.mp4" ∈ c7Store.failCopy ∧
    saveVideoRun c7Store "file:///tmp/capture.mp4" c7Meta 99 =
      (c7Store, Except.error "Failed to save video") :=
  ⟨by decide,
    (C7_save_copy_before_index c7Store "file:///tmp/capture.mp4" c7Meta 99).1
      (by decide)⟩

/-- C8: on a well-formed store with no injected deletion failures,
`cleanupOldVideos(maxAgeDays)` deletes exactly the entries whose age
`now - timestamp` strictly exceeds the threshold in milliseconds —
the surviving index holds exactly the non-expired entries, expired files
are gone and non-expired files remain — and returns the number of
expired entries (0 on an empty store or when nothing expired). -/
theorem C8_sweep_deletes_expired (videos : List StoredVideo) (st : Store)
    (now maxAgeDays : ℤ) (hOK : StoreOK videos st)
    (hfd : st.failDelete = []) :
    ∃ videosAfter stAfter,
      cleanupOldVideosRun st now maxAgeDays =
        (stAfter,
          (videos.filter (fun v => decide (isExpired now maxAgeDays v))).length) ∧
      stAfter.raw = RawIndex.good videosAfter ∧
      (∀ w, w ∈ videosAfter ↔ (w ∈ videos ∧ ¬ isExpired now maxAgeDays w)) ∧
      (∀ u, u ∈ stAfter.files ↔
        (u ∈ st.files ∧ ∀ v ∈ videos, isExpired now maxAgeDays v → u ≠ v.uri)) := by
  obtain ⟨hraw, hcons, hids, huris, hfiles⟩ := hOK
  have hrun := getAllVideosRun_consistent hraw hcons
  have hperm := List.perm_insertionSort tsDesc videos
  have hsubmem : ∀ v ∈ (sortByTimestampDesc videos).filter
      (fun v => decide (isExpired now maxAgeDays v)), v ∈ videos := by
    intro v hv
    exact mem_sortByTimestampDesc.mp (List.mem_filter.mp hv).1
  have hsubnd : (((sortByTimestampDesc videos).filter
      (fun v => decide (isExpired now maxAgeDays v))).map (fun v => v.id)).Nodup :=
    List.Nodup.sublist ((List.filter_sublist _).map _)
      (((hperm.map _).nodup_iff).mpr hids)
  obtain ⟨videosAfter, stAfter, heql, hOKA, _, _, hmemA, hfilesA⟩ :=
    deleteExpiredLoop_ok
      ((sortByTimestampDesc videos).filter
        (fun v => decide (isExpired now maxAgeDays v)))
      videos st ⟨hraw, hcons, hids, huris, hfiles⟩ hsubmem hsubnd
      (fun v _ => by
        rw [hfd]
        exact List.not_mem_nil _)
  have hcount : ((sortByTimestampDesc videos).filter
      (fun v => decide (isExpired now maxAgeDays v))).length =
        (videos.filter (fun v => decide (isExpired now maxAgeDays v))).length := by
    rw [← List.countP_eq_length_filter, ← List.countP_eq_length_filter]
    exact hperm.countP_eq _
  refine ⟨videosAfter, stAfter, ?_, hOKA.1, ?_, ?_⟩
  · simp only [cleanupOldVideosRun, hrun, heql, hcount]
  · intro w
    rw [hmemA w]
    constructor
    · rintro ⟨hwv, hall⟩
      refine ⟨hwv, fun hexp => ?_⟩
      exact hall w (List.mem_filter.mpr
        ⟨mem_sortByTimestampDesc.mpr hwv, by simpa using hexp⟩) rfl
    · rintro ⟨hwv, hnexp⟩
      refine ⟨hwv, fun v hv heq => ?_⟩
      have hvv : v ∈ videos := hsubmem v hv
      have hvexp : isExpired now maxAgeDays v := by
        simpa using (List.mem_filter.mp hv).2
      have : w = v := List.inj_on_of_nodup_map hids hwv hvv heq
      exact hnexp (this ▸ hvexp)
  · intro u
    rw [hfilesA u]
    constructor
    · rintro ⟨hu, hall⟩
      refine ⟨hu, fun v hv hexp => ?_⟩
      exact hall v (List.mem_filter.mpr
        ⟨mem_sortByTimestampDesc.mpr hv, by simpa using hexp⟩)
    · rintro ⟨hu, hall⟩
      refine ⟨hu, fun v hv => ?_⟩
      exact hall v (hsubmem v hv) (by simpa using (List.mem_filter.mp hv).2)

/-- C8 witness: under `maxAgeDays = 30` at `now` = day 100, the entry
captured on day 31 (age 31 days) is deleted and the entry captured on
day 71 (age 29 days) survives; the empty store sweeps to 0. -/
theorem C8_sweep_deletes_expired_witness :
    (StoreOK [c8Old, c8New] c8Store ∧ c8Store.failDelete = []) ∧
    (∃ videosAfter stAfter,
      cleanupOldVideosRun c8Store 8640000000 30 =
        (stAfter,
          ([c8Old, c8New].filter
            (fun v => decide (isExpired 8640000000 30 v))).length) ∧
      stAfter.raw = RawIndex.good videosAfter ∧
      (∀ w, w ∈ videosAfter ↔ (w ∈ [c8Old, c8New] ∧ ¬ isExpired 8640000000 30 w)) ∧
      (∀ u, u ∈ stAfter.files ↔
        (u ∈ c8Store.files ∧
          ∀ v ∈ [c8Old, c8New], isExpired 8640000000 30 v → u ≠ v.uri))) ∧
    (cleanupOldVideosRun c8Store 8640000000 30).2 = 1 ∧
    (cleanupOldVideosRun c8EmptyStore 8640000000 30).2 = 0 :=
  ⟨⟨by decide, rfl⟩,
    C8_sweep_deletes_expired [c8Old, c8New] c8Store 8640000000 30
      (by decide) rfl,
    by decide, by decide⟩

/-- C9 counterexample: the claim that `updateVideoAnalysis` leaves every
other index entry unchanged is false — on a store whose other entry has a
missing backing file, the call drops that entry from the index. -/
theorem C9_update_analysis_drops_dangling :
    c9Gone ∈ [c9Gone, c9Target] ∧
    updateVideoAnalysisRun c9Store "2" "res" =
      (⟨RawIndex.good [⟨"2", "u2", "reves", "reves_2.mp4", 2000, 5, 100, some "res"⟩],
          ["u2"], [], []⟩,
        Except.ok ()) ∧
    c9Gone ∉ [(⟨"2", "u2", "reves", "reves_2.mp4", 2000, 5, 100, some "res"⟩ : StoredVideo)] := by
  decide

/-- C9 amended: on a store whose entries all have live backing files,
`updateVideoAnalysis(videoId, a)` persists the index re-sorted
newest-first with only the matched entry's `analysisResult` replaced:
the matched position keeps every other field, every other position of
the sorted index is exactly the sorted original, entries with other ids
all remain members, and the files on disk are untouched. -/
theorem C9_update_analysis_amended (videos : List StoredVideo) (st : Store)
    (videoId analysisResult : String) (i : ℕ) (hOK : StoreOK videos st)
    (hidx : (sortByTimestampDesc videos).findIdx?
        (fun v => decide (v.id = videoId)) = some i) :
    updateVideoAnalysisRun st videoId analysisResult =
      ({ st with raw := RawIndex.good (setAnalysisAt analysisResult (sortByTimestampDesc videos) i) },
        Except.ok ()) ∧
    (∃ v, (sortByTimestampDesc videos)[i]? = some v ∧ v.id = videoId ∧
      (setAnalysisAt analysisResult (sortByTimestampDesc videos) i)[i]? =
        some { v with analysisResult := some analysisResult }) ∧
    (∀ j, j ≠ i →
      (setAnalysisAt analysisResult (sortByTimestampDesc videos) i)[j]? =
        (sortByTimestampDesc videos)[j]?) ∧
    (∀ w ∈ videos, w.id ≠ videoId →
      w ∈ setAnalysisAt analysisResult (sortByTimestampDesc videos) i) := by
  obtain ⟨hraw, hcons, hids, huris, hfiles⟩ := hOK
  have hrun := getAllVideosRun_consistent hraw hcons
  obtain ⟨v, hget, hpv⟩ := findIdx?_some_spec hidx
  have hvid : v.id = videoId := by simpa using hpv
  refine ⟨?_, ⟨v, hget, hvid, setAnalysisAt_getElem?_eq _ _ _ _ hget⟩,
    fun j hj => setAnalysisAt_getElem?_ne _ _ _ _ hj, ?_⟩
  · simp only [updateVideoAnalysisRun, hrun, hidx]
  · intro w hw hwid
    obtain ⟨j, hjw⟩ :=
      List.mem_iff_getElem?.mp (mem_sortByTimestampDesc.mpr hw)
    have hji : j ≠ i := by
      intro h
      subst h
      rw [hget] at hjw
      have hw_eq : v = w := Option.some.inj hjw
      exact hwid (hw_eq ▸ hvid)
    refine List.mem_iff_getElem?.mpr ⟨j, ?_⟩
    rw [setAnalysisAt_getElem?_ne _ _ _ _ hji]
    exact hjw

/-- C9 witness: the amended behaviour on a concrete clean two-entry
store, updating the analysis of the older entry. -/
theorem C9_update_analysis_amended_witness :
    (StoreOK [c9WitnessA, c9WitnessB] c9WitnessStore ∧
      (sortByTimestampDesc [c9WitnessA, c9WitnessB]).findIdx?
        (fun v => decide (v.id = "1")) = some 1) ∧
    (updateVideoAnalysisRun c9WitnessStore "1" "res" =
      ({ c9WitnessStore with raw := RawIndex.good (setAnalysisAt "res" (sortByTimestampDesc [c9WitnessA, c9WitnessB]) 1) },
        Except.ok ()) ∧
    (∃ v, (sortByTimestampDesc [c9WitnessA, c9WitnessB])[1]? = some v ∧
      v.id = "1" ∧
      (setAnalysisAt "res" (sortByTimestampDesc [c9WitnessA, c9WitnessB]) 1)[1]? =
        some { v with analysisResult := some "res" }) ∧
    (∀ j, j ≠ 1 →
      (setAnalysisAt "res" (sortByTimestampDesc [c9WitnessA, c9WitnessB]) 1)[j]? =
        (sortByTimestampDesc [c9WitnessA, c9WitnessB])[j]?) ∧
    (∀ w ∈ [c9WitnessA, c9WitnessB], w.id ≠ "1" →
      w ∈ setAnalysisAt "res" (sortByTimestampDesc [c9WitnessA, c9WitnessB]) 1)) :=
  ⟨⟨by decide, by decide⟩,
    C9_update_analysis_amended [c9WitnessA, c9WitnessB] c9WitnessStore "1" "res" 1
      (by decide) (by decide)⟩

/-- C10: `getVideosByShotType` returns exactly the filter of
`getAllVideos()` on the requested shot type — a subsequence of the
`getAllVideos` result, in the same timestamp-descending order, every
element of which carries the requested shot type — and performs the same
index reconciliation as `getAllVideos`. -/
theorem C10_filter_by_shot_type (st : Store) (shotType : String) :
    (getVideosByShotTypeRun st shotType).1 =
      ((getAllVideosRun st).1).filter (fun v => decide (v.shotType = shotType)) ∧
    (getVideosByShotTypeRun st shotType).2 = (getAllVideosRun st).2 ∧
    ((getVideosByShotTypeRun st shotType).1).Sublist ((getAllVideosRun st).1) ∧
    (∀ v ∈ (getVideosByShotTypeRun st shotType).1, v.shotType = shotType) ∧
    ((getAllVideosRun st).1).Pairwise tsDesc ∧
    ((getVideosByShotTypeRun st shotType).1).Pairwise tsDesc := by
  rcases hg : getAllVideosRun st with ⟨allVideos, st1⟩
  have hpair : allVideos.Pairwise tsDesc := by
    have := getAllVideosRun_pairwise st
    rw [hg] at this
    exact this
  have h1 : (getVideosByShotTypeRun st shotType).1 =
      allVideos.filter (fun v => decide (v.shotType = shotType)) := by
    simp only [getVideosByShotTypeRun, hg]
  have h2 : (getVideosByShotTypeRun st shotType).2 = st1 := by
    simp only [getVideosByShotTypeRun, hg]
  refine ⟨h1, h2, ?_, ?_, hpair, ?_⟩
  · rw [h1]
    exact List.filter_sublist _
  · intro v hv
    rw [h1] at hv
    simpa using (List.mem_filter.mp hv).2
  · rw [h1]
    exact List.Pairwise.sublist (List.filter_sublist _) hpair

end PadelTech
